import Mathlib

set_option linter.unusedVariables false
set_option linter.unnecessarySeqFocus false

/-!
Shallow embedding of the ping-tool repository (`src/main.go`), a sequential
command-line health-probe utility.  Durations are modelled as natural numbers
of nanoseconds (Go `time.Duration` is an integer nanosecond count and all
measured durations are nonnegative).  Go `float64` statistics are modelled by
exact rational arithmetic over `ℚ`.  Network interactions are modelled by
oracle functions supplying, per attempt, the transport-level outcome and the
elapsed time that the code would have measured.
-/

namespace PingTool

/-- Mirrors Go `PingResult` (`src/main.go:22`): `Error` (a nilable `error`)
becomes `Option String`; `StatusCode` keeps Go's zero value `0` when unset;
`ResponseTime` is in nanoseconds. -/
structure PingResult where
  target : String
  success : Bool
  responseTime : Nat
  statusCode : Nat
  error : Option String
deriving DecidableEq

/-- Transport-level outcome of an HTTP GET as seen by `pingHTTP`: either a
transport error (DNS, connect, timeout) with its message, or a response
carrying a status code. -/
inductive HTTPOutcome where
  | failure (msg : String) : HTTPOutcome
  | response (status : Nat) : HTTPOutcome
deriving DecidableEq

/-- Transport-level outcome of a TCP dial as seen by `pingTCP`. -/
inductive TCPOutcome where
  | failure (msg : String) : TCPOutcome
  | connected : TCPOutcome
deriving DecidableEq

/-- URL normalisation in `pingHTTP` (`src/main.go:108-111`): prepend
`protocol + "://"` unless the target already starts with `http://` or
`https://`. -/
def httpURL (target protocol : String) : String :=
  if target.startsWith "http://" || target.startsWith "https://" then target
  else protocol ++ "://" ++ target

/-- Go `pingHTTP` (`src/main.go:104-134`).  The network call is abstracted by
`outcome` (what `client.Get` returned) and `elapsed` (the measured duration,
recorded regardless of success).  On error the zero-value result keeps
`success = false` and `statusCode = 0`; on a response, `statusCode` is set and
`success = statusCode < 500`. -/
def pingHTTP (target protocol : String) (outcome : HTTPOutcome) (elapsed : Nat) :
    PingResult :=
  match outcome with
  | .failure msg =>
      { target := target, success := false, responseTime := elapsed,
        statusCode := 0, error := some msg }
  | .response status =>
      { target := target, success := decide (status < 500),
        responseTime := elapsed, statusCode := status, error := none }

/-- Go `strings.Contains(target, ":")` for the single-character pattern `":"`:
the target's character list contains `':'`.  Defined over the character list
so that it evaluates by kernel reduction. -/
def containsColon (target : String) : Bool :=
  target.data.contains ':'

/-- The address actually dialed by `pingTCP` (`src/main.go:139-142`):
`":80"` is appended when the target contains no `':'`. -/
def tcpDialAddress (target : String) : String :=
  if containsColon target then target else target ++ ":80"

/-- Go `pingTCP` (`src/main.go:136-156`).  `result.Target` is set before the
port default is appended, so it keeps the original target; the dialed address
is `tcpDialAddress target`.  The dial is abstracted by `outcome` and
`elapsed`. -/
def pingTCP (target : String) (outcome : TCPOutcome) (elapsed : Nat) :
    PingResult :=
  match outcome with
  | .failure msg =>
      { target := target, success := false, responseTime := elapsed,
        statusCode := 0, error := some msg }
  | .connected =>
      { target := target, success := true, responseTime := elapsed,
        statusCode := 0, error := none }

/-- The parsed command-line flags of `main` (`src/main.go:32-38`), including
the unused string flag `-test`. -/
structure Config where
  target : String
  pingType : String
  count : Int
  timeout : Int
  interval : Int
  continuous : Bool
  test : String
deriving DecidableEq

/-- Observable events emitted while the loop runs: the header block, the
ICMP fallback notice, the per-attempt result line (`printResult` with its
1-based sequence number), and each `time.Sleep` with its duration in
seconds. -/
inductive Event where
  | header (target pingType : String) : Event
  | notice : Event
  | probe (seq : Nat) (r : PingResult) : Event
  | sleep (seconds : Int) : Event
deriving DecidableEq

/-- Mutable state of the driver loop in `main` (`src/main.go:50-59`):
accumulated results, success counter, total successful latency, and the
iteration counter. -/
structure LoopState where
  results : List PingResult
  successCount : Nat
  totalTime : Nat
  iteration : Nat
deriving DecidableEq

/-- How a run ends: `exitNoTarget` and `exitBadType` are the two `os.Exit(1)`
paths; `finished` is the normal path reaching `printSummary` with the final
results, success counter and total successful latency.  Both non-fatal
constructors carry the events emitted so far. -/
inductive Outcome where
  | exitNoTarget : Outcome
  | exitBadType (results : List PingResult) (events : List Event) : Outcome
  | finished (results : List PingResult) (successCount totalTime : Nat)
      (events : List Event) : Outcome
deriving DecidableEq

/-- The process exit status for each outcome (`os.Exit(1)` on the fatal
paths, `0` on normal completion). -/
def exitCode : Outcome → Nat
  | .exitNoTarget => 1
  | .exitBadType _ _ => 1
  | .finished _ _ _ _ => 0

/-- Go `pingCount` (`src/main.go:54-57`): the configured count, replaced by `-1`
(run forever) when `-continuous` is set. -/
def pingCount (cfg : Config) : Int :=
  if cfg.continuous then -1 else cfg.count

/-- ASCII lowercasing of one character, as Go `strings.ToLower` acts on the
ASCII range (all protocol keywords compared against are ASCII). -/
def charLower (c : Char) : Char :=
  if 'A' ≤ c ∧ c ≤ 'Z' then Char.ofNat (c.toNat + 32) else c

/-- Go `strings.ToLower`, modelled as per-character ASCII case folding over the
character list so that it evaluates by kernel reduction. -/
def strToLower (s : String) : String :=
  ⟨s.data.map charLower⟩

/-- One execution of the `switch strings.ToLower(*pingType)` dispatch
(`src/main.go:66-77`) at iteration `i`: `none` models the `default` branch
(`os.Exit(1)`); otherwise the events printed before the probe (the ICMP
notice) and the probe's result.  `hOr`/`tOr` are the per-iteration network
oracles. -/
def probeStep (cfg : Config) (hOr : Nat → HTTPOutcome × Nat)
    (tOr : Nat → TCPOutcome × Nat) (i : Nat) : Option (List Event × PingResult) :=
  let p := strToLower cfg.pingType
  if p == "http" || p == "https" then
    some ([], pingHTTP cfg.target cfg.pingType (hOr i).1 (hOr i).2)
  else if p == "tcp" then
    some ([], pingTCP cfg.target (tOr i).1 (tOr i).2)
  else if p == "icmp" then
    some ([Event.notice], pingTCP cfg.target (tOr i).1 (tOr i).2)
  else
    none

/-- Whether the protocol selector reaches a non-`default` branch of the
dispatch: one of `http`, `https`, `tcp`, `icmp` after lowercasing. -/
def protocolSupported (pingType : String) : Bool :=
  let p := strToLower pingType
  p == "http" || p == "https" || p == "tcp" || p == "icmp"

/-- The driver loop of `main` (`src/main.go:60-92`), fuel-indexed: `none`
means the fuel ran out with the loop still running (used to reason about
non-termination).  Each pass checks the break condition
`pingCount > 0 && iteration >= pingCount`, dispatches the probe, appends the
result, prints it with sequence number `iteration+1`, updates the counters,
increments `iteration`, and sleeps unless the run is over. -/
def runMainLoop (cfg : Config) (hOr : Nat → HTTPOutcome × Nat)
    (tOr : Nat → TCPOutcome × Nat) :
    Nat → LoopState → List Event → Option Outcome
  | 0, _, _ => none
  | fuel + 1, s, evs =>
    if 0 < pingCount cfg ∧ pingCount cfg ≤ (s.iteration : Int) then
      some (.finished s.results s.successCount s.totalTime evs)
    else
      match probeStep cfg hOr tOr s.iteration with
      | none => some (.exitBadType s.results evs)
      | some (pre, r) =>
        runMainLoop cfg hOr tOr fuel
          { results := s.results ++ [r],
            successCount := s.successCount + (if r.success then 1 else 0),
            totalTime := s.totalTime + (if r.success then r.responseTime else 0),
            iteration := s.iteration + 1 }
          (evs ++ pre ++ [Event.probe (s.iteration + 1) r] ++
            (if pingCount cfg < 0 ∨ ((s.iteration : Int) + 1) < pingCount cfg then
              [Event.sleep cfg.interval] else []))

/-- Go `main` (`src/main.go:30-95`): reject an empty target with exit status 1,
print the header, then run the driver loop from the empty state. -/
def runMain (cfg : Config) (hOr : Nat → HTTPOutcome × Nat)
    (tOr : Nat → TCPOutcome × Nat) (fuel : Nat) : Option Outcome :=
  if cfg.target == "" then some .exitNoTarget
  else
    runMainLoop cfg hOr tOr fuel
      { results := [], successCount := 0, totalTime := 0, iteration := 0 }
      [Event.header cfg.target cfg.pingType]

/-- Sum of `responseTime` over the successful results — the value the
driver's `totalTime` accumulator reaches (`src/main.go:82-85`). -/
def sumSucc : List PingResult → Nat
  | [] => 0
  | r :: rs => (if r.success then r.responseTime else 0) + sumSucc rs

/-- Response times of the successful attempts, in order. -/
def successTimes (results : List PingResult) : List Nat :=
  (results.filter (fun r => r.success)).map (fun r => r.responseTime)

/-- One step of the min/max scan of `printSummary` (`src/main.go:188-205`):
a `first` flag plus running minimum and maximum over successful results. -/
def minMaxStep (acc : Bool × Nat × Nat) (r : PingResult) : Bool × Nat × Nat :=
  if r.success then
    match acc with
    | (true, _, _) => (false, r.responseTime, r.responseTime)
    | (false, mn, mx) =>
        (false, if r.responseTime < mn then r.responseTime else mn,
          if mx < r.responseTime then r.responseTime else mx)
  else acc

/-- The min/max scan of `printSummary`, starting from Go's zero values
`first = true`, `minTime = maxTime = 0`. -/
def minMaxFold (results : List PingResult) : Bool × Nat × Nat :=
  results.foldl minMaxStep (true, 0, 0)

/-- The health-verdict switch of `printSummary` (`src/main.go:211-226`),
on the success rate in percent: `优秀` = excellent, `良好` = good,
`一般` = fair, `较差` = poor. -/
def healthStatus (rate : ℚ) : String :=
  if rate = 100 then "优秀"
  else if 90 ≤ rate then "良好"
  else if 70 ≤ rate then "一般"
  else "较差"

/-- The values printed by `printSummary` (`src/main.go:177-227`): counts,
loss percentage, optional latency statistics (average by integer division of
nanosecond durations, as Go's `totalTime / time.Duration(successCount)`;
minimum and maximum from the scan), and the health verdict.  `float64`
arithmetic is modelled exactly over `ℚ`. -/
structure Summary where
  sent : Nat
  successes : Nat
  failed : Int
  lossPct : ℚ
  latencyStats : Option (Nat × Nat × Nat)
  verdict : String

/-- Build the summary from the final results and counters, exactly as
`printSummary` computes each printed value. -/
def mkSummary (results : List PingResult) (successCount totalTime : Nat) :
    Summary :=
  let n := results.length
  { sent := n
    successes := successCount
    failed := (n : Int) - (successCount : Int)
    lossPct := ((((n : Int) - (successCount : Int)) : Int) : ℚ) / (n : ℚ) * 100
    latencyStats :=
      if 0 < successCount then
        some (totalTime / successCount, (minMaxFold results).2.1,
          (minMaxFold results).2.2)
      else none
    verdict := healthStatus ((successCount : ℚ) / (n : ℚ) * 100) }

/-- Arithmetic mean of `responseTime` over the successful attempts, as an
exact rational. -/
def meanSucc (results : List PingResult) : ℚ :=
  (sumSucc results : ℚ) / (results.countP (fun r => r.success) : ℚ)

/-- The events a supported dispatch prints before the probe itself: the
fallback notice in ICMP mode, nothing otherwise. -/
def preEvents (cfg : Config) : List Event :=
  if strToLower cfg.pingType == "icmp" then [Event.notice] else []

/-- The result of the attempt at iteration `i` when the protocol is
supported (junk zero result otherwise, never reached under a supported
protocol). -/
def probeAt (cfg : Config) (hOr : Nat → HTTPOutcome × Nat)
    (tOr : Nat → TCPOutcome × Nat) (i : Nat) : PingResult :=
  ((probeStep cfg hOr tOr i).map Prod.snd).getD
    { target := "", success := false, responseTime := 0, statusCode := 0,
      error := none }

/-- The results of attempts `i, i+1, …, i+k-1`, in order. -/
def segResults (cfg : Config) (hOr : Nat → HTTPOutcome × Nat)
    (tOr : Nat → TCPOutcome × Nat) (i k : Nat) : List PingResult :=
  (List.range k).map (fun j => probeAt cfg hOr tOr (i + j))

/-- The events of a bounded run of `N` attempts starting at iteration `i`
with `k` attempts left: each attempt prints its pre-events, then its result
line numbered `i+1`, then sleeps exactly when another attempt follows
(`i + 1 < N`) — never after the final attempt. -/
def boundedEvents (cfg : Config) (hOr : Nat → HTTPOutcome × Nat)
    (tOr : Nat → TCPOutcome × Nat) (N : Nat) : Nat → Nat → List Event
  | _, 0 => []
  | i, k + 1 =>
    preEvents cfg ++ [Event.probe (i + 1) (probeAt cfg hOr tOr i)] ++
      (if i + 1 < N then [Event.sleep cfg.interval] else []) ++
      boundedEvents cfg hOr tOr N (i + 1) k

/-- A configuration with the unsupported protocol selector `ftp`. -/
def cfgFtp : Config :=
  { target := "example.com", pingType := "ftp", count := 4, timeout := 5,
    interval := 1, continuous := false, test := "" }

/-- An HTTP oracle that always fails at the transport level. -/
def hOrF : Nat → HTTPOutcome × Nat := fun _ => (.failure "x", 0)

/-- A TCP oracle that always connects, with elapsed time `i + 1` at
iteration `i`. -/
def tOrUp : Nat → TCPOutcome × Nat := fun i => (.connected, i + 1)

/-- A successful result used to build witness result lists. -/
def rOkW : PingResult :=
  { target := "w", success := true, responseTime := 1, statusCode := 0,
    error := none }

/-- A bounded TCP configuration with two attempts. -/
def cfgTcp2 : Config :=
  { target := "h", pingType := "tcp", count := 2, timeout := 5, interval := 1,
    continuous := false, test := "" }

/-- The two results of the two-attempt TCP run with latencies 1 and 2. -/
def rT1 : PingResult :=
  { target := "h", success := true, responseTime := 1, statusCode := 0,
    error := none }

/-- Second result of the two-attempt TCP run. -/
def rT2 : PingResult :=
  { target := "h", success := true, responseTime := 2, statusCode := 0,
    error := none }

/-- The events of the two-attempt TCP run. -/
def evT : List Event :=
  [.header "h" "tcp", .probe 1 rT1, .sleep 1, .probe 2 rT2]

/-- A TCP oracle with even latencies `2·(i+1)`. -/
def tOrE : Nat → TCPOutcome × Nat := fun i => (.connected, 2 * (i + 1))

/-- First result of the even-latency run. -/
def rE1 : PingResult :=
  { target := "h", success := true, responseTime := 2, statusCode := 0,
    error := none }

/-- Second result of the even-latency run. -/
def rE2 : PingResult :=
  { target := "h", success := true, responseTime := 4, statusCode := 0,
    error := none }

/-- Events of the even-latency run. -/
def evE : List Event :=
  [.header "h" "tcp", .probe 1 rE1, .sleep 1, .probe 2 rE2]

/-- A continuous-mode TCP configuration. -/
def cfgCont : Config :=
  { target := "h", pingType := "tcp", count := 4, timeout := 5, interval := 1,
    continuous := true, test := "" }

theorem probeStep_of_unsupported (cfg : Config) (hOr : Nat → HTTPOutcome × Nat)
    (tOr : Nat → TCPOutcome × Nat) (i : Nat)
    (hs : protocolSupported cfg.pingType = false) :
    probeStep cfg hOr tOr i = none := by
  unfold protocolSupported at hs
  simp only [Bool.or_eq_false_iff] at hs
  unfold probeStep
  simp [hs.1.1.1, hs.1.1.2, hs.1.2, hs.2]

theorem probeAt_eq {cfg : Config} {hOr : Nat → HTTPOutcome × Nat}
    {tOr : Nat → TCPOutcome × Nat} {i : Nat} {pre : List Event} {r : PingResult}
    (h : probeStep cfg hOr tOr i = some (pre, r)) :
    probeAt cfg hOr tOr i = r := by
  unfold probeAt
  rw [h]
  rfl

theorem probeStep_of_supported (cfg : Config) (hOr : Nat → HTTPOutcome × Nat)
    (tOr : Nat → TCPOutcome × Nat) (i : Nat)
    (hs : protocolSupported cfg.pingType = true) :
    probeStep cfg hOr tOr i = some (preEvents cfg, probeAt cfg hOr tOr i) := by
  unfold protocolSupported at hs
  simp only [Bool.or_eq_true, beq_iff_eq] at hs
  rcases hs with ((h | h) | h) | h
  · have hps : probeStep cfg hOr tOr i =
        some ([], pingHTTP cfg.target cfg.pingType (hOr i).1 (hOr i).2) := by
      unfold probeStep; rw [h]; simp
    have hpre : preEvents cfg = [] := by
      unfold preEvents; rw [h]; decide
    rw [hps, hpre, probeAt_eq hps]
  · have hps : probeStep cfg hOr tOr i =
        some ([], pingHTTP cfg.target cfg.pingType (hOr i).1 (hOr i).2) := by
      unfold probeStep; rw [h]; simp
    have hpre : preEvents cfg = [] := by
      unfold preEvents; rw [h]; decide
    rw [hps, hpre, probeAt_eq hps]
  · have hps : probeStep cfg hOr tOr i =
        some ([], pingTCP cfg.target (tOr i).1 (tOr i).2) := by
      unfold probeStep; rw [h]; simp
    have hpre : preEvents cfg = [] := by
      unfold preEvents; rw [h]; decide
    rw [hps, hpre, probeAt_eq hps]
  · have hps : probeStep cfg hOr tOr i =
        some ([Event.notice], pingTCP cfg.target (tOr i).1 (tOr i).2) := by
      unfold probeStep; rw [h]; simp
    have hpre : preEvents cfg = [Event.notice] := by
      unfold preEvents; rw [h]; decide
    rw [hps, hpre, probeAt_eq hps]

theorem segResults_succ (cfg : Config) (hOr : Nat → HTTPOutcome × Nat)
    (tOr : Nat → TCPOutcome × Nat) (i k : Nat) :
    segResults cfg hOr tOr i (k + 1) =
      probeAt cfg hOr tOr i :: segResults cfg hOr tOr (i + 1) k := by
  unfold segResults
  rw [List.range_succ_eq_map, List.map_cons, List.map_map]
  refine congrArg₂ List.cons (by simp) ?_
  refine List.map_congr_left fun j hj => ?_
  simp only [Function.comp_apply]
  congr 1
  omega

theorem sumSucc_append (l₁ l₂ : List PingResult) :
    sumSucc (l₁ ++ l₂) = sumSucc l₁ + sumSucc l₂ := by
  induction l₁ with
  | nil => simp [sumSucc]
  | cons r l ih => simp [sumSucc, ih]; omega

/-- The driver loop in bounded mode, fully described: starting at iteration
`i` with `k = N - i` attempts left and enough fuel, the loop finishes with
the `k` dispatched results appended in order, the counters advanced by the
successes among them, and the per-attempt events (with sleeps only between
attempts) appended. -/
theorem runMainLoop_bounded (cfg : Config) (hOr : Nat → HTTPOutcome × Nat)
    (tOr : Nat → TCPOutcome × Nat) (N : Nat)
    (hpc : pingCount cfg = (N : Int)) (hN : 0 < N)
    (hs : protocolSupported cfg.pingType = true) :
    ∀ (k : Nat) (s : LoopState) (evs : List Event) (fuel : Nat),
      s.iteration + k = N → k < fuel →
      runMainLoop cfg hOr tOr fuel s evs = some (.finished
        (s.results ++ segResults cfg hOr tOr s.iteration k)
        (s.successCount +
          (segResults cfg hOr tOr s.iteration k).countP (fun r => r.success))
        (s.totalTime + sumSucc (segResults cfg hOr tOr s.iteration k))
        (evs ++ boundedEvents cfg hOr tOr N s.iteration k)) := by
  intro k
  induction k with
  | zero =>
    intro s evs fuel hik hfuel
    obtain ⟨f, rfl⟩ : ∃ f, fuel = f + 1 := ⟨fuel - 1, by omega⟩
    have hcond : 0 < pingCount cfg ∧ pingCount cfg ≤ (s.iteration : Int) := by
      rw [hpc]; omega
    rw [runMainLoop, if_pos hcond]
    simp [segResults, boundedEvents, sumSucc]
  | succ k ih =>
    intro s evs fuel hik hfuel
    obtain ⟨f, rfl⟩ : ∃ f, fuel = f + 1 := ⟨fuel - 1, by omega⟩
    have hcond : ¬(0 < pingCount cfg ∧ pingCount cfg ≤ (s.iteration : Int)) := by
      rw [hpc]; omega
    rw [runMainLoop, if_neg hcond, probeStep_of_supported cfg hOr tOr s.iteration hs]
    have hrec := ih
      { results := s.results ++ [probeAt cfg hOr tOr s.iteration],
        successCount := s.successCount +
          (if (probeAt cfg hOr tOr s.iteration).success then 1 else 0),
        totalTime := s.totalTime +
          (if (probeAt cfg hOr tOr s.iteration).success then
            (probeAt cfg hOr tOr s.iteration).responseTime else 0),
        iteration := s.iteration + 1 }
      (evs ++ preEvents cfg ++
        [Event.probe (s.iteration + 1) (probeAt cfg hOr tOr s.iteration)] ++
        (if pingCount cfg < 0 ∨ ((s.iteration : Int) + 1) < pingCount cfg then
          [Event.sleep cfg.interval] else []))
      f (by show s.iteration + 1 + k = N; omega) (by omega)
    dsimp only at hrec ⊢
    rw [hrec]
    have hsleep : (pingCount cfg < 0 ∨ ((s.iteration : Int) + 1) < pingCount cfg) ↔
        (s.iteration + 1 < N) := by
      rw [hpc]; omega
    simp only [Option.some.injEq, Outcome.finished.injEq]
    refine ⟨?_, ?_, ?_, ?_⟩
    · rw [segResults_succ]
      simp [List.append_assoc]
    · rw [segResults_succ, List.countP_cons]
      cases h : (probeAt cfg hOr tOr s.iteration).success <;> simp [h] <;> omega
    · rw [segResults_succ]
      simp only [sumSucc]
      cases h : (probeAt cfg hOr tOr s.iteration).success <;> simp [h] <;> omega
    · rw [boundedEvents]
      simp only [hsleep]
      simp [List.append_assoc]

/-- Whenever the driver loop reaches `printSummary`, the break condition
held, so `pingCount` was positive. -/
theorem runMainLoop_finished_pos (cfg : Config) (hOr : Nat → HTTPOutcome × Nat)
    (tOr : Nat → TCPOutcome × Nat) :
    ∀ (fuel : Nat) (s : LoopState) (evs : List Event)
      (r : List PingResult) (sc tt : Nat) (e : List Event),
      runMainLoop cfg hOr tOr fuel s evs = some (.finished r sc tt e) →
      0 < pingCount cfg := by
  intro fuel
  induction fuel with
  | zero => intro s evs r sc tt e h; simp [runMainLoop] at h
  | succ f ih =>
    intro s evs r sc tt e h
    rw [runMainLoop] at h
    by_cases hcond : 0 < pingCount cfg ∧ pingCount cfg ≤ (s.iteration : Int)
    · exact hcond.1
    · rw [if_neg hcond] at h
      cases hps : probeStep cfg hOr tOr s.iteration with
      | none => rw [hps] at h; simp at h
      | some pr =>
        obtain ⟨pre, rr⟩ := pr
        rw [hps] at h
        dsimp only at h
        exact ih _ _ _ _ _ _ h

/-- Loop invariant carried to the summary: the success counter counts the
successful results, the latency accumulator sums their response times, and
the result count reaches at least `pingCount`. -/
theorem runMainLoop_finished_inv (cfg : Config) (hOr : Nat → HTTPOutcome × Nat)
    (tOr : Nat → TCPOutcome × Nat) :
    ∀ (fuel : Nat) (s : LoopState) (evs : List Event)
      (r : List PingResult) (sc tt : Nat) (e : List Event),
      runMainLoop cfg hOr tOr fuel s evs = some (.finished r sc tt e) →
      s.successCount = s.results.countP (fun x => x.success) →
      s.totalTime = sumSucc s.results →
      s.results.length = s.iteration →
      sc = r.countP (fun x => x.success) ∧ tt = sumSucc r ∧
        (pingCount cfg).toNat ≤ r.length := by
  intro fuel
  induction fuel with
  | zero => intro s evs r sc tt e h; simp [runMainLoop] at h
  | succ f ih =>
    intro s evs r sc tt e h hsc htt hlen
    rw [runMainLoop] at h
    by_cases hcond : 0 < pingCount cfg ∧ pingCount cfg ≤ (s.iteration : Int)
    · rw [if_pos hcond] at h
      simp only [Option.some.injEq, Outcome.finished.injEq] at h
      obtain ⟨hr, hsc', htt', he⟩ := h
      subst hr
      refine ⟨by rw [← hsc', hsc], by rw [← htt', htt], ?_⟩
      have := hcond.2
      omega
    · rw [if_neg hcond] at h
      cases hps : probeStep cfg hOr tOr s.iteration with
      | none => rw [hps] at h; simp at h
      | some pr =>
        obtain ⟨pre, rr⟩ := pr
        rw [hps] at h
        dsimp only at h
        refine ih _ _ _ _ _ _ h ?_ ?_ ?_
        · cases h' : rr.success <;>
            simp [h', hsc, List.countP_append, List.countP_cons]
        · cases h' : rr.success <;>
            simp [h', htt, sumSucc_append, sumSucc]
        · simp [hlen]

/-- With a supported protocol and a nonpositive `pingCount`, the loop never
terminates: every fuel bound is exhausted. -/
theorem runMainLoop_never_stops (cfg : Config) (hOr : Nat → HTTPOutcome × Nat)
    (tOr : Nat → TCPOutcome × Nat) (hs : protocolSupported cfg.pingType = true)
    (hpc : pingCount cfg ≤ 0) :
    ∀ (fuel : Nat) (s : LoopState) (evs : List Event),
      runMainLoop cfg hOr tOr fuel s evs = none := by
  intro fuel
  induction fuel with
  | zero => intro s evs; simp [runMainLoop]
  | succ f ih =>
    intro s evs
    rw [runMainLoop, if_neg (by omega), probeStep_of_supported cfg hOr tOr _ hs]
    dsimp only
    exact ih _ _

theorem successTimes_cons (r : PingResult) (l : List PingResult) :
    successTimes (r :: l) =
      if r.success then r.responseTime :: successTimes l else successTimes l := by
  unfold successTimes
  rw [List.filter_cons]
  by_cases h : r.success <;> simp [h]

theorem successTimes_length (l : List PingResult) :
    (successTimes l).length = l.countP (fun r => r.success) := by
  unfold successTimes
  rw [List.length_map, ← List.countP_eq_length_filter]

theorem minMaxStep_ite_min (mn t : Nat) : (if t < mn then t else mn) = min mn t := by
  split <;> omega

theorem minMaxStep_ite_max (mx t : Nat) : (if mx < t then t else mx) = max mx t := by
  split <;> omega

theorem foldl_min_mem (l : List Nat) (a : Nat) : l.foldl min a ∈ a :: l := by
  induction l generalizing a with
  | nil => simp
  | cons b l ih =>
    rw [List.foldl_cons]
    rcases List.mem_cons.mp (ih (min a b)) with h | h
    · rw [h]
      rcases min_choice a b with h' | h' <;> simp [h']
    · simp [h]

theorem foldl_min_le (l : List Nat) (a : Nat) :
    l.foldl min a ≤ a ∧ ∀ x ∈ l, l.foldl min a ≤ x := by
  induction l generalizing a with
  | nil => simp
  | cons b l ih =>
    rw [List.foldl_cons]
    obtain ⟨h1, h2⟩ := ih (min a b)
    refine ⟨le_trans h1 (min_le_left a b), ?_⟩
    intro x hx
    rcases List.mem_cons.mp hx with h | h
    · rw [h]
      exact le_trans h1 (min_le_right a b)
    · exact h2 x h

theorem foldl_max_mem (l : List Nat) (a : Nat) : l.foldl max a ∈ a :: l := by
  induction l generalizing a with
  | nil => simp
  | cons b l ih =>
    rw [List.foldl_cons]
    rcases List.mem_cons.mp (ih (max a b)) with h | h
    · rw [h]
      rcases max_choice a b with h' | h' <;> simp [h']
    · simp [h]

theorem foldl_max_ge (l : List Nat) (a : Nat) :
    a ≤ l.foldl max a ∧ ∀ x ∈ l, x ≤ l.foldl max a := by
  induction l generalizing a with
  | nil => simp
  | cons b l ih =>
    rw [List.foldl_cons]
    obtain ⟨h1, h2⟩ := ih (max a b)
    refine ⟨le_trans (le_max_left a b) h1, ?_⟩
    intro x hx
    rcases List.mem_cons.mp hx with h | h
    · rw [h]
      exact le_trans (le_max_right a b) h1
    · exact h2 x h

/-- Once the `first` flag is cleared, the scan folds `min`/`max` over the
remaining successful response times. -/
theorem minMax_go_false (l : List PingResult) :
    ∀ mn mx, l.foldl minMaxStep (false, mn, mx) =
      (false, (successTimes l).foldl min mn, (successTimes l).foldl max mx) := by
  induction l with
  | nil => intro mn mx; simp [successTimes]
  | cons r l ih =>
    intro mn mx
    rw [List.foldl_cons, successTimes_cons]
    by_cases h : r.success
    · simp only [h, if_true]
      have hstep : minMaxStep (false, mn, mx) r =
          (false, min mn r.responseTime, max mx r.responseTime) := by
        unfold minMaxStep
        rw [if_pos h]
        dsimp only
        rw [minMaxStep_ite_min, minMaxStep_ite_max]
      rw [hstep, ih, List.foldl_cons, List.foldl_cons]
    · have h' : r.success = false := by simp [h]
      have hstep : minMaxStep (false, mn, mx) r = (false, mn, mx) := by
        unfold minMaxStep
        rw [h']
        simp
      rw [hstep, ih, h']
      simp

/-- With at least one success, the scan of `printSummary` returns exactly the
minimum and the maximum of the successful response times. -/
theorem minMaxFold_spec (l : List PingResult) (h : successTimes l ≠ []) :
    (minMaxFold l).2.1 ∈ successTimes l ∧
      (∀ x ∈ successTimes l, (minMaxFold l).2.1 ≤ x) ∧
      (minMaxFold l).2.2 ∈ successTimes l ∧
      (∀ x ∈ successTimes l, x ≤ (minMaxFold l).2.2) := by
  induction l with
  | nil => simp [successTimes] at h
  | cons r l ih =>
    by_cases hr : r.success
    · have hstep : minMaxStep (true, 0, 0) r =
          (false, r.responseTime, r.responseTime) := by
        unfold minMaxStep
        rw [if_pos hr]
      have hfold : minMaxFold (r :: l) =
          (false, (successTimes l).foldl min r.responseTime,
            (successTimes l).foldl max r.responseTime) := by
        unfold minMaxFold
        rw [List.foldl_cons, hstep, minMax_go_false]
      have hst : successTimes (r :: l) = r.responseTime :: successTimes l := by
        rw [successTimes_cons, if_pos hr]
      rw [hfold, hst]
      refine ⟨foldl_min_mem _ _, ?_, foldl_max_mem _ _, ?_⟩
      · intro x hx
        rcases List.mem_cons.mp hx with h' | h'
        · exact h' ▸ (foldl_min_le _ _).1
        · exact (foldl_min_le _ _).2 x h'
      · intro x hx
        rcases List.mem_cons.mp hx with h' | h'
        · exact h' ▸ (foldl_max_ge _ _).1
        · exact (foldl_max_ge _ _).2 x h'
    · have hr' : r.success = false := by simp [hr]
      have hstep : minMaxStep (true, 0, 0) r = (true, 0, 0) := by
        unfold minMaxStep
        rw [hr']
        simp
      have hst : successTimes (r :: l) = successTimes l := by
        rw [successTimes_cons, hr']
        simp
      have hfold : minMaxFold (r :: l) = minMaxFold l := by
        unfold minMaxFold
        rw [List.foldl_cons, hstep]
      rw [hfold, hst]
      exact ih (hst ▸ h)

/-- Facts available whenever `main` completes normally: the counters passed
to `printSummary` are the count and latency sum of the successful results,
the break condition held, and all `pingCount` attempts were recorded. -/
theorem runMain_finished_inv (cfg : Config) (hOr : Nat → HTTPOutcome × Nat)
    (tOr : Nat → TCPOutcome × Nat) (fuel : Nat) (r : List PingResult)
    (sc tt : Nat) (e : List Event)
    (h : runMain cfg hOr tOr fuel = some (.finished r sc tt e)) :
    sc = r.countP (fun x => x.success) ∧ tt = sumSucc r ∧
      0 < pingCount cfg ∧ (pingCount cfg).toNat ≤ r.length := by
  unfold runMain at h
  by_cases ht : (cfg.target == "") = true
  · rw [if_pos ht] at h
    simp at h
  · rw [if_neg ht] at h
    have hpos := runMainLoop_finished_pos cfg hOr tOr fuel _ _ r sc tt e h
    have hinv := runMainLoop_finished_inv cfg hOr tOr fuel _ _ r sc tt e h
      rfl rfl rfl
    exact ⟨hinv.1, hinv.2.1, hpos, hinv.2.2⟩

/-- The first `k` results of a run starting at iteration `0` are the probes
of iterations `0, …, k-1`. -/
theorem segResults_zero (cfg : Config) (hOr : Nat → HTTPOutcome × Nat)
    (tOr : Nat → TCPOutcome × Nat) (k : Nat) :
    segResults cfg hOr tOr 0 k =
      (List.range k).map (fun j => probeAt cfg hOr tOr j) := by
  unfold segResults
  refine List.map_congr_left fun j hj => ?_
  rw [Nat.zero_add]

/-- The driver loop never reads the `-test` flag: runs differing only in its
value evolve identically. -/
theorem runMainLoop_test_irrel (t p : String) (c tmo iv : Int) (cont : Bool)
    (v w : String) (hOr : Nat → HTTPOutcome × Nat)
    (tOr : Nat → TCPOutcome × Nat) :
    ∀ (fuel : Nat) (s : LoopState) (evs : List Event),
      runMainLoop ⟨t, p, c, tmo, iv, cont, v⟩ hOr tOr fuel s evs =
        runMainLoop ⟨t, p, c, tmo, iv, cont, w⟩ hOr tOr fuel s evs := by
  intro fuel
  induction fuel with
  | zero => intro s evs; rfl
  | succ f ih =>
    intro s evs
    rw [runMainLoop, runMainLoop]
    have hpc : pingCount ⟨t, p, c, tmo, iv, cont, v⟩ =
        pingCount ⟨t, p, c, tmo, iv, cont, w⟩ := rfl
    have hps : probeStep ⟨t, p, c, tmo, iv, cont, v⟩ hOr tOr =
        probeStep ⟨t, p, c, tmo, iv, cont, w⟩ hOr tOr := rfl
    have hiv : (⟨t, p, c, tmo, iv, cont, v⟩ : Config).interval =
        (⟨t, p, c, tmo, iv, cont, w⟩ : Config).interval := rfl
    rw [hpc, hps, hiv]
    by_cases hcond : 0 < pingCount ⟨t, p, c, tmo, iv, cont, w⟩ ∧
        pingCount ⟨t, p, c, tmo, iv, cont, w⟩ ≤ (s.iteration : Int)
    · rw [if_pos hcond, if_pos hcond]
    · rw [if_neg hcond, if_neg hcond]
      cases hps' : probeStep ⟨t, p, c, tmo, iv, cont, w⟩ hOr tOr s.iteration with
      | none => rfl
      | some pr =>
        obtain ⟨pre, rr⟩ := pr
        dsimp only
        exact ih _ _

/-- C1: for every HTTP(S) probe that receives a response, `success` holds
iff the recorded status code is strictly below `500`; in particular a `404`
response is classified successful and a `503` response failed. -/
theorem pingHTTP_success_iff_status_lt_500 (target protocol : String)
    (status elapsed : Nat) :
    ((pingHTTP target protocol (.response status) elapsed).success = true ↔
      (pingHTTP target protocol (.response status) elapsed).statusCode < 500) ∧
    (pingHTTP target protocol (.response 404) elapsed).success = true ∧
    (pingHTTP target protocol (.response 503) elapsed).success = false := by
  refine ⟨?_, ?_, ?_⟩ <;> simp [pingHTTP]

/-- Witness for C1 at concrete statuses 404 and 503. -/
theorem pingHTTP_success_iff_status_lt_500_witness :
    (pingHTTP "h" "http" (.response 404) 7).success = true ∧
    (pingHTTP "h" "http" (.response 503) 7).success = false :=
  ⟨(pingHTTP_success_iff_status_lt_500 "h" "http" 404 7).2.1,
   (pingHTTP_success_iff_status_lt_500 "h" "http" 503 7).2.2⟩

/-- C7: the TCP probe dials `target ++ ":80"` when the target contains no
colon, and dials the target unchanged otherwise. -/
theorem tcpDialAddress_default_port :
    (∀ t : String, containsColon t = false → tcpDialAddress t = t ++ ":80") ∧
    (∀ t : String, containsColon t = true → tcpDialAddress t = t) := by
  constructor <;> intro t h <;> simp [tcpDialAddress, h]

/-- Witness for C7 at concrete targets with and without a colon. -/
theorem tcpDialAddress_default_port_witness :
    tcpDialAddress "example.com" = "example.com" ++ ":80" ∧
    tcpDialAddress "example.com:443" = "example.com:443" :=
  ⟨tcpDialAddress_default_port.1 "example.com" (by decide),
   tcpDialAddress_default_port.2 "example.com:443" (by decide)⟩

/-- C8: for both probe executors, a successful result never carries an
error. -/
theorem success_implies_no_error :
    (∀ (t p : String) (o : HTTPOutcome) (e : Nat),
      (pingHTTP t p o e).success = true → (pingHTTP t p o e).error = none) ∧
    (∀ (t : String) (o : TCPOutcome) (e : Nat),
      (pingTCP t o e).success = true → (pingTCP t o e).error = none) := by
  constructor
  · intro t p o e h
    cases o <;> simp [pingHTTP] at h ⊢
  · intro t o e h
    cases o <;> simp [pingTCP] at h ⊢

/-- Witness for C8 at a successful HTTP response and a successful TCP
dial. -/
theorem success_implies_no_error_witness :
    (pingHTTP "h" "http" (.response 200) 5).error = none ∧
    (pingTCP "h" .connected 5).error = none :=
  ⟨success_implies_no_error.1 "h" "http" (.response 200) 5 (by decide),
   success_implies_no_error.2 "h" .connected 5 (by decide)⟩

/-- C10: the `-test` flag is parsed but never read; two runs identical
except for its value perform the same probes, record the same results and
produce the same output. -/
theorem test_flag_no_influence (cfg : Config) (v : String)
    (hOr : Nat → HTTPOutcome × Nat) (tOr : Nat → TCPOutcome × Nat)
    (fuel : Nat) :
    runMain { cfg with test := v } hOr tOr fuel = runMain cfg hOr tOr fuel := by
  obtain ⟨t, p, c, tmo, iv, cont, tv⟩ := cfg
  show runMain ⟨t, p, c, tmo, iv, cont, v⟩ hOr tOr fuel =
    runMain ⟨t, p, c, tmo, iv, cont, tv⟩ hOr tOr fuel
  unfold runMain
  dsimp only
  by_cases ht : (t == "") = true
  · rw [if_pos ht, if_pos ht]
  · rw [if_neg ht, if_neg ht]
    exact runMainLoop_test_irrel t p c tmo iv cont v tv hOr tOr fuel _ _

/-- C2: with a non-empty target and a protocol outside
`{http, https, tcp, icmp}` (after lowercasing), the run exits with status 1
before recording any probe attempt: the result list is empty and the only
output is the header. -/
theorem unsupported_protocol_exits_one (cfg : Config)
    (hOr : Nat → HTTPOutcome × Nat) (tOr : Nat → TCPOutcome × Nat)
    (fuel : Nat) (ht : cfg.target ≠ "")
    (hs : protocolSupported cfg.pingType = false) (hf : 1 ≤ fuel) :
    runMain cfg hOr tOr fuel =
      some (.exitBadType [] [Event.header cfg.target cfg.pingType]) ∧
    exitCode (.exitBadType [] [Event.header cfg.target cfg.pingType]) = 1 := by
  refine ⟨?_, rfl⟩
  unfold runMain
  rw [if_neg (by simp [ht])]
  obtain ⟨f, rfl⟩ : ∃ f, fuel = f + 1 := ⟨fuel - 1, by omega⟩
  rw [runMainLoop]
  rw [if_neg (by dsimp only; omega)]
  rw [probeStep_of_unsupported cfg hOr tOr _ hs]

/-- Witness for C2: the `ftp` run exits with status 1 and records
nothing. -/
theorem unsupported_protocol_exits_one_witness :
    runMain cfgFtp hOrF tOrUp 1 =
      some (.exitBadType [] [Event.header cfgFtp.target cfgFtp.pingType]) ∧
    exitCode (.exitBadType [] [Event.header cfgFtp.target cfgFtp.pingType]) = 1 :=
  unsupported_protocol_exits_one cfgFtp hOrF tOrUp 1 (by decide) (by decide)
    (by decide)

/-- C3: the health verdict is a function of the success rate in four bands:
exactly 100 % is `优秀` (excellent); at least 90 % but below 100 % is `良好`
(good) — so exactly 90 % is good; at least 70 % but below 90 % is `一般`
(fair) — so exactly 70 % is fair; below 70 % is `较差` (poor). -/
theorem summary_verdict_bands (results : List PingResult)
    (successCount totalTime : Nat) (hne : results ≠ []) :
    ((successCount : ℚ) / (results.length : ℚ) * 100 = 100 →
      (mkSummary results successCount totalTime).verdict = "优秀") ∧
    (90 ≤ (successCount : ℚ) / (results.length : ℚ) * 100 ∧
        (successCount : ℚ) / (results.length : ℚ) * 100 < 100 →
      (mkSummary results successCount totalTime).verdict = "良好") ∧
    (70 ≤ (successCount : ℚ) / (results.length : ℚ) * 100 ∧
        (successCount : ℚ) / (results.length : ℚ) * 100 < 90 →
      (mkSummary results successCount totalTime).verdict = "一般") ∧
    ((successCount : ℚ) / (results.length : ℚ) * 100 < 70 →
      (mkSummary results successCount totalTime).verdict = "较差") := by
  have hv : (mkSummary results successCount totalTime).verdict =
      healthStatus ((successCount : ℚ) / (results.length : ℚ) * 100) := rfl
  refine ⟨?_, ?_, ?_, ?_⟩
  · intro h
    rw [hv]
    unfold healthStatus
    rw [if_pos h]
  · rintro ⟨h1, h2⟩
    rw [hv]
    unfold healthStatus
    rw [if_neg (ne_of_lt h2), if_pos h1]
  · rintro ⟨h1, h2⟩
    rw [hv]
    unfold healthStatus
    rw [if_neg (ne_of_lt (lt_trans h2 (by norm_num))),
      if_neg (not_le.mpr h2), if_pos h1]
  · intro h
    rw [hv]
    unfold healthStatus
    rw [if_neg (ne_of_lt (lt_trans h (by norm_num))),
      if_neg (not_le.mpr (lt_trans h (by norm_num))),
      if_neg (not_le.mpr h)]

/-- Witness for C3: rates 100 %, 90 %, 70 % and 25 % land in the four
bands, with the boundary rates 90 and 70 in the upper band. -/
theorem summary_verdict_bands_witness :
    (mkSummary (List.replicate 1 rOkW) 1 0).verdict = "优秀" ∧
    (mkSummary (List.replicate 10 rOkW) 9 0).verdict = "良好" ∧
    (mkSummary (List.replicate 10 rOkW) 7 0).verdict = "一般" ∧
    (mkSummary (List.replicate 4 rOkW) 1 0).verdict = "较差" :=
  ⟨(summary_verdict_bands _ 1 0 (by decide)).1
      (by norm_num [List.length_replicate]),
   (summary_verdict_bands _ 9 0 (by decide)).2.1
      (by norm_num [List.length_replicate]),
   (summary_verdict_bands _ 7 0 (by decide)).2.2.1
      (by norm_num [List.length_replicate]),
   (summary_verdict_bands _ 1 0 (by decide)).2.2.2
      (by norm_num [List.length_replicate])⟩

/-- C4: in bounded mode with `N = count ≥ 1` attempts configured, the run
performs exactly `N` probes, records their results in order (iterations
`0, …, N-1`), numbers the printed lines `1, …, N`, and sleeps the configured
interval exactly between consecutive attempts (`boundedEvents` places a
sleep after attempt `i+1` iff `i + 1 < N`). -/
theorem bounded_run_trace (cfg : Config) (hOr : Nat → HTTPOutcome × Nat)
    (tOr : Nat → TCPOutcome × Nat) (hcont : cfg.continuous = false)
    (hN : 1 ≤ cfg.count) (ht : cfg.target ≠ "")
    (hs : protocolSupported cfg.pingType = true) (fuel : Nat)
    (hf : cfg.count.toNat < fuel) :
    runMain cfg hOr tOr fuel = some (.finished
      ((List.range cfg.count.toNat).map (fun j => probeAt cfg hOr tOr j))
      (((List.range cfg.count.toNat).map
          (fun j => probeAt cfg hOr tOr j)).countP (fun x => x.success))
      (sumSucc ((List.range cfg.count.toNat).map
          (fun j => probeAt cfg hOr tOr j)))
      (Event.header cfg.target cfg.pingType ::
        boundedEvents cfg hOr tOr cfg.count.toNat 0 cfg.count.toNat)) := by
  have hpc : pingCount cfg = (cfg.count.toNat : Int) := by
    simp [pingCount, hcont]
    omega
  unfold runMain
  rw [if_neg (by simp [ht])]
  have hrun := runMainLoop_bounded cfg hOr tOr cfg.count.toNat hpc (by omega)
    hs cfg.count.toNat ⟨[], 0, 0, 0⟩ [Event.header cfg.target cfg.pingType]
    fuel (by show 0 + cfg.count.toNat = cfg.count.toNat; omega) hf
  rw [hrun]
  dsimp only
  simp [segResults_zero]

/-- Witness for C4: the two-attempt TCP run, evaluated. -/
theorem bounded_run_trace_witness :
    runMain cfgTcp2 hOrF tOrUp 3 = some (.finished
      ((List.range cfgTcp2.count.toNat).map
        (fun j => probeAt cfgTcp2 hOrF tOrUp j))
      (((List.range cfgTcp2.count.toNat).map
          (fun j => probeAt cfgTcp2 hOrF tOrUp j)).countP (fun x => x.success))
      (sumSucc ((List.range cfgTcp2.count.toNat).map
          (fun j => probeAt cfgTcp2 hOrF tOrUp j)))
      (Event.header cfgTcp2.target cfgTcp2.pingType ::
        boundedEvents cfgTcp2 hOrF tOrUp cfgTcp2.count.toNat 0
          cfgTcp2.count.toNat)) :=
  bounded_run_trace cfgTcp2 hOrF tOrUp (by decide) (by decide) (by decide)
    (by decide) 3 (by decide)

/-- C5: whenever a run completes, the summary's success and failure counts
sum to the number of attempts, the success counter equals the number of
successful results, and the loss percentage is `(N - successCount)/N·100`. -/
theorem summary_counts_and_loss (cfg : Config) (hOr : Nat → HTTPOutcome × Nat)
    (tOr : Nat → TCPOutcome × Nat) (fuel : Nat) (r : List PingResult)
    (sc tt : Nat) (e : List Event)
    (h : runMain cfg hOr tOr fuel = some (.finished r sc tt e)) :
    sc = r.countP (fun x => x.success) ∧
    sc ≤ r.length ∧
    (sc : Int) + (mkSummary r sc tt).failed = (r.length : Int) ∧
    (mkSummary r sc tt).lossPct =
      ((r.length : ℚ) - (r.countP (fun x => x.success) : ℚ)) /
        (r.length : ℚ) * 100 := by
  obtain ⟨hsc, htt, hpos, hlen⟩ := runMain_finished_inv cfg hOr tOr fuel
    r sc tt e h
  refine ⟨hsc, ?_, ?_, ?_⟩
  · rw [hsc]
    exact List.countP_le_length _
  · show (sc : Int) + ((r.length : Int) - (sc : Int)) = (r.length : Int)
    omega
  · show ((((r.length : Int) - (sc : Int)) : Int) : ℚ) / (r.length : ℚ) * 100 =
      ((r.length : ℚ) - (r.countP (fun x => x.success) : ℚ)) /
        (r.length : ℚ) * 100
    rw [← hsc]
    push_cast
    ring

/-- Witness for C5 on the concrete two-attempt TCP run. -/
theorem summary_counts_and_loss_witness :
    (2 : Nat) = List.countP (fun x => x.success) [rT1, rT2] ∧
    2 ≤ ([rT1, rT2] : List PingResult).length ∧
    ((2 : Nat) : Int) + (mkSummary [rT1, rT2] 2 3).failed =
      (([rT1, rT2] : List PingResult).length : Int) ∧
    (mkSummary [rT1, rT2] 2 3).lossPct =
      ((([rT1, rT2] : List PingResult).length : ℚ) -
          (List.countP (fun x => x.success) [rT1, rT2] : ℚ)) /
        (([rT1, rT2] : List PingResult).length : ℚ) * 100 :=
  summary_counts_and_loss cfgTcp2 hOrF tOrUp 3 [rT1, rT2] 2 3 evT (by decide)

/-- Counterexample to C6 as stated: in the completed two-attempt run with
successful latencies 1 ns and 2 ns, the summary's average is
`totalTime / successCount = 3 / 2 = 1` (integer duration division), while
the arithmetic mean of the successful response times is `3/2`; the two
differ. -/
theorem summary_avg_not_mean_cex :
    runMain cfgTcp2 hOrF tOrUp 3 = some (.finished [rT1, rT2] 2 3 evT) ∧
    (mkSummary [rT1, rT2] 2 3).latencyStats = some (1, 1, 2) ∧
    meanSucc [rT1, rT2] = 3 / 2 ∧ ((1 : ℚ) ≠ 3 / 2) := by
  refine ⟨by decide, by decide, ?_, by norm_num⟩
  have h1 : sumSucc [rT1, rT2] = 3 := by decide
  have h2 : List.countP (fun x => x.success) [rT1, rT2] = 2 := by decide
  unfold meanSucc
  rw [h1, h2]
  norm_num

/-- C6 (amended): the summary prints latency statistics iff at least one
attempt succeeded; when printed, the average is the arithmetic mean of
`responseTime` over the successful attempts only, truncated to whole
nanoseconds (the floor of the mean, from integer duration division), and
the minimum and maximum range over the successful attempts only. -/
theorem summary_latency_stats (cfg : Config) (hOr : Nat → HTTPOutcome × Nat)
    (tOr : Nat → TCPOutcome × Nat) (fuel : Nat) (r : List PingResult)
    (sc tt : Nat) (e : List Event)
    (h : runMain cfg hOr tOr fuel = some (.finished r sc tt e)) :
    ((mkSummary r sc tt).latencyStats ≠ none ↔
      0 < r.countP (fun x => x.success)) ∧
    (∀ avg mn mx, (mkSummary r sc tt).latencyStats = some (avg, mn, mx) →
      avg = ⌊meanSucc r⌋₊ ∧
      mn ∈ successTimes r ∧ (∀ x ∈ successTimes r, mn ≤ x) ∧
      mx ∈ successTimes r ∧ (∀ x ∈ successTimes r, x ≤ mx)) := by
  obtain ⟨hsc, htt, hpos, hlen⟩ := runMain_finished_inv cfg hOr tOr fuel
    r sc tt e h
  have hstats : (mkSummary r sc tt).latencyStats =
      if 0 < sc then
        some (tt / sc, (minMaxFold r).2.1, (minMaxFold r).2.2)
      else none := rfl
  constructor
  · rw [hstats]
    by_cases hpos' : 0 < sc
    · rw [if_pos hpos']
      constructor
      · intro _
        rw [← hsc]
        exact hpos'
      · intro _
        exact Option.some_ne_none _
    · rw [if_neg hpos']
      constructor
      · intro hcontra
        exact absurd rfl hcontra
      · intro hcontra
        rw [← hsc] at hcontra
        exact absurd hcontra hpos'
  · intro avg mn mx hsome
    rw [hstats] at hsome
    by_cases hpos' : 0 < sc
    swap
    · rw [if_neg hpos'] at hsome
      exact absurd hsome (by simp)
    rw [if_pos hpos'] at hsome
    simp only [Option.some.injEq, Prod.mk.injEq] at hsome
    obtain ⟨havg, hmn, hmx⟩ := hsome
    have hne : successTimes r ≠ [] := by
      intro hnil
      have hl := successTimes_length r
      rw [hnil] at hl
      rw [← hsc] at hl
      simp at hl
      omega
    obtain ⟨m1, m2, m3, m4⟩ := minMaxFold_spec r hne
    refine ⟨?_, ?_, ?_, ?_, ?_⟩
    · rw [← havg, htt, hsc]
      unfold meanSucc
      rw [Nat.floor_div_nat, Nat.floor_natCast]
    · rw [← hmn]
      exact m1
    · intro x hx
      rw [← hmn]
      exact m2 x hx
    · rw [← hmx]
      exact m3
    · intro x hx
      rw [← hmx]
      exact m4 x hx

/-- Witness for the amended C6 on the run with successful latencies 2 and 4:
stats are printed, the average 3 equals the floor of the mean, and 2 is the
minimum of the successful response times. -/
theorem summary_latency_stats_witness :
    ((3 : Nat) = ⌊meanSucc [rE1, rE2]⌋₊) ∧
    ((2 : Nat) ∈ successTimes [rE1, rE2]) ∧
    ((mkSummary [rE1, rE2] 2 6).latencyStats ≠ none) := by
  have h := summary_latency_stats cfgTcp2 hOrF tOrE 3 [rE1, rE2] 2 6 evE
    (by decide)
  have h2 := h.2 3 2 4 (by decide)
  exact ⟨h2.1, h2.2.1, h.1.mpr (by decide)⟩

/-- C9: with a valid target and protocol, the driver loop terminates in a
summary iff continuous mode is off and the configured count is at least 1;
a reached summary always carries a non-empty result list; in every other
configuration (continuous mode, or a count of 0 or less) the loop runs
forever — no fuel bound ever completes it. -/
theorem loop_terminates_iff (cfg : Config) (hOr : Nat → HTTPOutcome × Nat)
    (tOr : Nat → TCPOutcome × Nat) (ht : cfg.target ≠ "")
    (hs : protocolSupported cfg.pingType = true) :
    ((∃ fuel r sc tt e, runMain cfg hOr tOr fuel = some (.finished r sc tt e))
      ↔ (cfg.continuous = false ∧ 1 ≤ cfg.count)) ∧
    (∀ fuel r sc tt e,
      runMain cfg hOr tOr fuel = some (.finished r sc tt e) → r ≠ []) ∧
    (¬(cfg.continuous = false ∧ 1 ≤ cfg.count) →
      ∀ fuel, runMain cfg hOr tOr fuel = none) := by
  have hpc_pos : 0 < pingCount cfg → cfg.continuous = false ∧ 1 ≤ cfg.count := by
    intro hp
    unfold pingCount at hp
    cases hc : cfg.continuous
    · rw [hc] at hp
      simp at hp
      exact ⟨rfl, by omega⟩
    · rw [hc] at hp
      norm_num at hp
  have hnopc : ¬(cfg.continuous = false ∧ 1 ≤ cfg.count) → pingCount cfg ≤ 0 := by
    intro hn
    unfold pingCount
    cases hc : cfg.continuous
    · simp [hc] at hn ⊢
      omega
    · simp
  refine ⟨⟨?_, ?_⟩, ?_, ?_⟩
  · rintro ⟨fuel, r, sc, tt, e, h⟩
    exact hpc_pos (runMain_finished_inv cfg hOr tOr fuel r sc tt e h).2.2.1
  · rintro ⟨hcont, hcount⟩
    have hpc : pingCount cfg = (cfg.count.toNat : Int) := by
      simp [pingCount, hcont]
      omega
    refine ⟨cfg.count.toNat + 1,
      [] ++ segResults cfg hOr tOr 0 cfg.count.toNat,
      0 + (segResults cfg hOr tOr 0 cfg.count.toNat).countP (fun x => x.success),
      0 + sumSucc (segResults cfg hOr tOr 0 cfg.count.toNat),
      [Event.header cfg.target cfg.pingType] ++
        boundedEvents cfg hOr tOr cfg.count.toNat 0 cfg.count.toNat, ?_⟩
    unfold runMain
    rw [if_neg (by simp [ht])]
    exact runMainLoop_bounded cfg hOr tOr cfg.count.toNat hpc (by omega) hs
      cfg.count.toNat ⟨[], 0, 0, 0⟩ [Event.header cfg.target cfg.pingType]
      (cfg.count.toNat + 1)
      (by show 0 + cfg.count.toNat = cfg.count.toNat; omega) (by omega)
  · intro fuel r sc tt e h
    obtain ⟨-, -, hpos, hlen⟩ := runMain_finished_inv cfg hOr tOr fuel
      r sc tt e h
    exact List.length_pos.mp (by omega)
  · intro hn fuel
    unfold runMain
    rw [if_neg (by simp [ht])]
    exact runMainLoop_never_stops cfg hOr tOr hs (hnopc hn) fuel _ _

/-- Witness for C9: the continuous run never completes within fuel 5. -/
theorem loop_terminates_iff_witness :
    runMain cfgCont hOrF tOrUp 5 = none :=
  (loop_terminates_iff cfgCont hOrF tOrUp (by decide) (by decide)).2.2
    (by decide) 5

end PingTool
